import Mathlib

/-!
Shallow embedding of the core Raft consensus engine of the atomix raft
storage replica: the shared protocol state (term, votedFor, leader,
commitIndex, firstCommitIndex, status) and the candidate role logic
(election start, vote handling, vote tallying from candidate.go).

The protocol state implementation itself ships outside these sources (only
its test exercises it here), so its mutators are modelled from the
specification, section 4.1; the candidate role is embedded directly from
candidate.go.
-/

namespace Raft

/-- A member identifier: an opaque string naming a cluster member. -/
abbrev MemberID := String

/-- Node status, mirroring StatusStopped, StatusRunning and StatusReady. -/
inductive Status
  | Stopped
  | Running
  | Ready
deriving DecidableEq, Repr

/-- Role types, mirroring RoleFollower, RoleCandidate and RoleLeader. -/
inductive RoleType
  | Follower
  | Candidate
  | Leader
deriving DecidableEq, Repr

/-- Modelled from the spec: the shared protocol state of a replica (the raft
struct of the protocol package, whose implementation is not among these
sources; only its test is). Fields follow section 3 of the specification.
The events field records the status events emitted, in order. -/
structure RaftState where
  members : List MemberID
  term : Nat
  votedFor : Option MemberID
  leader : Option MemberID
  commitIndex : Nat
  firstCommitIndex : Option Nat
  status : Status
  events : List Status
deriving DecidableEq, Repr

/-- Modelled from the spec: SetTerm fails if the argument is below the
current term; a strictly greater term is stored and clears votedFor and
leader; an equal term is accepted and changes nothing. -/
def RaftState.SetTerm (s : RaftState) (t : Nat) : Except String RaftState :=
  if t < s.term then .error "cannot decrease term"
  else if s.term < t then
    .ok { s with term := t, votedFor := none, leader := none }
  else .ok s

/-- Modelled from the spec: SetLastVotedFor fails on an empty member id, on
an id that is not in the cluster, or when a vote was already cast in the
current term; otherwise it records the vote. -/
def RaftState.SetLastVotedFor (s : RaftState) (m : MemberID) :
    Except String RaftState :=
  if m = "" then .error "empty member id"
  else if m ∉ s.members then .error "unknown member"
  else
    match s.votedFor with
    | some _ => .error "already voted in this term"
    | none => .ok { s with votedFor := some m }

/-- Modelled from the spec: SetLeader with a null argument always succeeds
and clears the leader; a non-null argument fails exactly when a different
leader is already set in the current term. -/
def RaftState.SetLeader (s : RaftState) (m : Option MemberID) :
    Except String RaftState :=
  match m with
  | none => .ok { s with leader := none }
  | some l =>
    match s.leader with
    | none => .ok { s with leader := some l }
    | some cur => if cur = l then .ok s else .error "cannot change leaders"

/-- Modelled from the spec: SetCommitIndex records the first commit index on
its first call and is a no-op afterwards; it has no error outcome (a total
function). -/
def RaftState.SetCommitIndex (s : RaftState) (i : Nat) : RaftState :=
  match s.firstCommitIndex with
  | none => { s with firstCommitIndex := some i }
  | some _ => s

/-- Modelled from the spec: Commit with an index at or below the current
commit index returns the current commit index and changes nothing; a greater
index is stored and the previous commit index is returned, transitioning to
Ready (and emitting a status event) when the first commit index is set, now
reached, and the status is Running. -/
def RaftState.Commit (s : RaftState) (i : Nat) : RaftState × Nat :=
  if i ≤ s.commitIndex then (s, s.commitIndex)
  else
    match s.firstCommitIndex with
    | some f =>
      if f ≤ i ∧ s.status = Status.Running then
        ({ s with commitIndex := i, status := Status.Ready,
                  events := s.events ++ [Status.Ready] }, s.commitIndex)
      else ({ s with commitIndex := i }, s.commitIndex)
    | none => ({ s with commitIndex := i }, s.commitIndex)

/-- Reader for the last vote cast, mirroring LastVotedFor. -/
def RaftState.LastVotedFor (s : RaftState) : Option MemberID := s.votedFor

/-- Reader for the known leader, mirroring Leader. -/
def RaftState.Leader (s : RaftState) : Option MemberID := s.leader

/-- Reader for the commit index, mirroring CommitIndex. -/
def RaftState.CommitIndex (s : RaftState) : Nat := s.commitIndex

/-- Runs a fallible mutator, keeping the prior state when the call fails
(callers of the protocol state observe an error and the state is left as it
was). -/
def orKeep (s : RaftState) (r : Except String RaftState) : RaftState :=
  match r with
  | .ok s₁ => s₁
  | .error _ => s

/-- A sequence of SetTerm calls, each failure leaving the state unchanged. -/
def RaftState.runSetTerms (s : RaftState) (ts : List Nat) : RaftState :=
  ts.foldl (fun a t => orKeep a (a.SetTerm t)) s

/-- A sequence of Commit calls (return values discarded). -/
def RaftState.runCommits (s : RaftState) (indices : List Nat) : RaftState :=
  indices.foldl (fun a i => (a.Commit i).1) s

/-- One call on the protocol state, for reasoning about call sequences. -/
inductive ProtoOp
  | setTerm (t : Nat)
  | setLastVotedFor (m : MemberID)
  | setLeader (m : Option MemberID)
  | setCommitIndex (i : Nat)
  | commit (i : Nat)
deriving DecidableEq, Repr

/-- Applies one call, keeping the prior state when the call fails. -/
def applyOp (s : RaftState) : ProtoOp → RaftState
  | .setTerm t => orKeep s (s.SetTerm t)
  | .setLastVotedFor m => orKeep s (s.SetLastVotedFor m)
  | .setLeader m => orKeep s (s.SetLeader m)
  | .setCommitIndex i => s.SetCommitIndex i
  | .commit i => (s.Commit i).1

/-- Applies a sequence of calls in order. -/
def applyOps (s : RaftState) (ops : List ProtoOp) : RaftState :=
  ops.foldl applyOp s

/-- The member ids of the successful non-null SetLeader calls in a sequence
of non-null SetLeader calls executed in order. -/
def leaderSuccesses (s : RaftState) : List MemberID → List MemberID
  | [] => []
  | m :: ms =>
    match s.SetLeader (some m) with
    | .ok s₁ => m :: leaderSuccesses s₁ ms
    | .error _ => leaderSuccesses s ms

/-- Quorum over n voting members, embedding candidate.go line 175 (the
floating-point floor of n over 2, plus one, is exact for any cluster size). -/
def quorumOf (n : Nat) : Nat := n / 2 + 1

/-- Count of granted votes in a list of tallied votes. -/
def yesVotes : List Bool → Nat
  | [] => 0
  | true :: vs => yesVotes vs + 1
  | false :: vs => yesVotes vs

/-- Count of rejected votes in a list of tallied votes. -/
def noVotes : List Bool → Nat
  | [] => 0
  | true :: vs => noVotes vs
  | false :: vs => noVotes vs + 1

/-- Bookkeeping of the vote-counting goroutine in sendVoteRequests. -/
structure TallyState where
  voteCount : Nat
  rejectCount : Nat
deriving DecidableEq, Repr

/-- Outcome of one iteration of the vote-counting loop, candidate.go lines
179 to 206: bail out on a stale election, transition on a quorum of grants
or of rejections, or keep counting. -/
inductive TallyStep
  | abort
  | wonElection
  | lostElection
  | keepCounting (ts : TallyState)
deriving DecidableEq, Repr

/-- One iteration of the vote-counting loop of sendVoteRequests. The active
flag, current term and leader are the values read under the write lock at
this iteration; electionTerm is the term the votes were requested for. -/
def tallyStep (quorum : Nat) (electionTerm : Nat) (active : Bool)
    (currentTerm : Nat) (leader : Option MemberID) (ts : TallyState)
    (vote : Bool) : TallyStep :=
  if ¬active ∨ currentTerm ≠ electionTerm then .abort
  else if vote then
    if leader = none ∧ ts.voteCount + 1 = quorum then .wonElection
    else .keepCounting ⟨ts.voteCount + 1, ts.rejectCount⟩
  else
    if ts.rejectCount + 1 = quorum then .lostElection
    else .keepCounting ⟨ts.voteCount, ts.rejectCount + 1⟩

/-- Result of running the vote-counting loop over the received votes. -/
inductive ElectionOutcome
  | becameLeader
  | becameFollower
  | aborted
  | undecided
deriving DecidableEq, Repr

/-- Runs the vote-counting loop over the list of votes received on the
channel, with the environment (active flag, current term, known leader)
held fixed across iterations. -/
def runTally (quorum : Nat) (electionTerm : Nat) (active : Bool)
    (currentTerm : Nat) (leader : Option MemberID) :
    TallyState → List Bool → ElectionOutcome
  | _, [] => .undecided
  | ts, v :: vs =>
    match tallyStep quorum electionTerm active currentTerm leader ts v with
    | .abort => .aborted
    | .wonElection => .becameLeader
    | .lostElection => .becameFollower
    | .keepCounting ts₁ =>
      runTally quorum electionTerm active currentTerm leader ts₁ vs

/-- A message produced by one peer vote request: a transport failure or the
peer response, candidate.go lines 245 to 270. -/
inductive VoteReply
  | rpcFailure
  | response (term : Nat) (voted : Bool)
deriving DecidableEq, Repr

/-- Effect of handling one peer vote reply in the requesting goroutine,
candidate.go lines 246 to 270: the protocol state afterwards, the role
transition requested, whether the votes channel was closed, and the vote
pushed onto the tally channel. -/
structure ReplyEffect where
  raft : RaftState
  roleSet : Option RoleType
  closedVotes : Bool
  pushedVote : Option Bool
deriving DecidableEq, Repr

/-- Handles one peer vote reply, embedding candidate.go lines 246 to 270: a
transport failure counts a rejection; a response with a term above the
request term adopts that term (SetTerm, its error ignored), steps down to
follower and closes the votes channel; an ungranted vote counts a
rejection; a granted vote whose term differs from the current term counts a
rejection; otherwise the vote counts as granted. -/
def handleVoteReply (s : RaftState) (requestTerm : Nat) (msg : VoteReply) :
    ReplyEffect :=
  match msg with
  | .rpcFailure => ⟨s, none, false, some false⟩
  | .response t voted =>
    if requestTerm < t then
      ⟨orKeep s (s.SetTerm t), some RoleType.Follower, true, none⟩
    else if voted = false then ⟨s, none, false, some false⟩
    else if t ≠ s.term then ⟨s, none, false, some false⟩
    else ⟨s, none, false, some true⟩

/-- Effect of CandidateRole.Start, candidate.go lines 50 to 60: the protocol
state afterwards, the role transition requested, and whether an election
round (sendVoteRequests) was scheduled. -/
structure StartOutcome where
  raft : RaftState
  roleSet : Option RoleType
  electionScheduled : Bool
deriving DecidableEq, Repr

/-- CandidateRole.Start, candidate.go lines 50 to 60: with a single voting
member it requests the leader role at once and schedules no election round;
otherwise it schedules sendVoteRequests. -/
def candidateStart (s : RaftState) : StartOutcome :=
  if s.members.length = 1 then ⟨s, some RoleType.Leader, false⟩
  else ⟨s, none, true⟩

/-- Response status codes of the RPC surface. -/
inductive ResponseStatus
  | OK
  | ERROR
deriving DecidableEq, Repr

/-- A vote request, with the fields used by the candidate role (field names
lowercased because the Go names collide with their types here). -/
structure VoteRequest where
  term : Nat
  candidate : MemberID
  lastLogIndex : Nat
  lastLogTerm : Nat
deriving DecidableEq, Repr

/-- A vote response, with the fields used by the candidate role. -/
structure VoteResponse where
  status : ResponseStatus
  term : Nat
  voted : Bool
deriving DecidableEq, Repr

/-- Modelled from the spec: PassiveRole.updateTermAndLeader, whose source is
not among these files. Per sections 4.3 and 4.4, when the request term is
greater than the current term the term is adopted (clearing votedFor and
leader) and the given leader recorded, returning true; otherwise nothing is
mutated and it returns false. -/
def updateTermAndLeader (s : RaftState) (t : Nat) (leader : Option MemberID) :
    RaftState × Bool :=
  if s.term < t then
    let s₁ := orKeep s (s.SetTerm t)
    (orKeep s₁ (s₁.SetLeader leader), true)
  else (s, false)

/-- Modelled from the spec: ActiveRole.handleVote, whose source is not among
these files. Per section 4.4: reject a lower term; grant exactly when no
vote was cast or it was cast for this candidate, and the candidate log is at
least as up to date; record the vote on grant. -/
def handleVote (s : RaftState) (req : VoteRequest) (lastLogIndex : Nat)
    (lastLogTerm : Nat) : RaftState × VoteResponse :=
  if req.term < s.term then
    (s, ⟨ResponseStatus.OK, s.term, false⟩)
  else if (s.votedFor = none ∨ s.votedFor = some req.candidate) ∧
      (lastLogTerm < req.lastLogTerm ∨
        (req.lastLogTerm = lastLogTerm ∧ lastLogIndex ≤ req.lastLogIndex)) then
    (orKeep s (s.SetLastVotedFor req.candidate),
     ⟨ResponseStatus.OK, s.term, true⟩)
  else (s, ⟨ResponseStatus.OK, s.term, false⟩)

/-- CandidateRole.Vote, candidate.go lines 71 to 104: a request term above
the current term steps the candidate down to follower and delegates to
handleVote; otherwise the candidate grants exactly the request naming
itself, rejecting every other candidate, without touching the protocol
state. -/
def candidateVote (s : RaftState) (self : MemberID) (req : VoteRequest)
    (lastLogIndex : Nat) (lastLogTerm : Nat) :
    RaftState × VoteResponse × Option RoleType :=
  if (updateTermAndLeader s req.term none).2 then
    let s₁ := (updateTermAndLeader s req.term none).1
    ((handleVote s₁ req lastLogIndex lastLogTerm).1,
     (handleVote s₁ req lastLogIndex lastLogTerm).2, some RoleType.Follower)
  else if req.candidate = self then
    (s, ⟨ResponseStatus.OK, s.term, true⟩, none)
  else
    (s, ⟨ResponseStatus.OK, s.term, false⟩, none)

/-- A concrete running protocol state over the test cluster, at term 3. -/
def s0 : RaftState :=
  { members := ["foo", "bar", "baz"], term := 3, votedFor := none,
    leader := none, commitIndex := 0, firstCommitIndex := none,
    status := Status.Running, events := [] }

/-- The state s0 after a vote for foo. -/
def s1 : RaftState := { s0 with votedFor := some "foo" }

/-- The state s0 with bar as the known leader. -/
def s2 : RaftState := { s0 with leader := some "bar" }

/-- The state s0 with commit index 5 and first commit index 10. -/
def s3 : RaftState := { s0 with commitIndex := 5, firstCommitIndex := some 10 }

/-- A protocol state whose cluster has a single voting member. -/
def sOne : RaftState := { s0 with members := ["solo"] }

/-- A vote request by foo for itself at term 3. -/
def reqSelf : VoteRequest := ⟨3, "foo", 0, 0⟩

/-! ### Lemmas about the protocol state mutators -/

lemma trySetTerm_term_mono (s : RaftState) (t : Nat) :
    s.term ≤ (orKeep s (s.SetTerm t)).term := by
  simp only [RaftState.SetTerm]
  split_ifs with h₁ h₂
  · simp [orKeep]
  · simp only [orKeep]; omega
  · simp [orKeep]

lemma trySetTerm_term_of_le (s : RaftState) (t : Nat) (h : s.term ≤ t) :
    (orKeep s (s.SetTerm t)).term = t := by
  simp only [RaftState.SetTerm]
  rw [if_neg (by omega)]
  by_cases h₂ : s.term < t
  · rw [if_pos h₂]; simp [orKeep]
  · rw [if_neg h₂]; simp only [orKeep]; omega

lemma runSetTerms_cons (s : RaftState) (t : Nat) (ts : List Nat) :
    RaftState.runSetTerms s (t :: ts) =
      RaftState.runSetTerms (orKeep s (s.SetTerm t)) ts := rfl

lemma runSetTerms_term_mono (ts : List Nat) :
    ∀ s : RaftState, s.term ≤ (s.runSetTerms ts).term := by
  induction ts with
  | nil => intro s; simp [RaftState.runSetTerms]
  | cons t ts ih =>
    intro s
    rw [runSetTerms_cons]
    exact le_trans (trySetTerm_term_mono s t) (ih _)

end Raft

namespace Raft

/-- C1: across any sequence of SetTerm calls the observed term is
monotonically non-decreasing; a call with a term below the current one
fails and leaves the state unchanged; and a call that advances the term
clears both votedFor and leader. -/
theorem setTerm_monotonic (s : RaftState) (t : Nat) (ts : List Nat) :
    (t < s.term → s.SetTerm t = Except.error "cannot decrease term") ∧
    (t < s.term → orKeep s (s.SetTerm t) = s) ∧
    s.term ≤ (orKeep s (s.SetTerm t)).term ∧
    s.term ≤ (s.runSetTerms ts).term ∧
    (s.term < t → s.SetTerm t =
      Except.ok { s with term := t, votedFor := none, leader := none }) := by
  refine ⟨?_, ?_, trySetTerm_term_mono s t, runSetTerms_term_mono ts s, ?_⟩
  · intro h; simp [RaftState.SetTerm, h]
  · intro h; simp [RaftState.SetTerm, h, orKeep]
  · intro h
    have h₁ : ¬ t < s.term := by omega
    simp [RaftState.SetTerm, h, h₁]

/-- Concrete check of setTerm_monotonic on s0 (term 3) with terms 2 and 7. -/
theorem setTerm_monotonic_witness :
    s0.SetTerm 2 = Except.error "cannot decrease term" ∧
    orKeep s0 (s0.SetTerm 2) = s0 ∧
    s0.SetTerm 7 =
      Except.ok { s0 with term := 7, votedFor := none, leader := none } :=
  ⟨(setTerm_monotonic s0 2 []).1 (by decide),
   (setTerm_monotonic s0 2 []).2.1 (by decide),
   (setTerm_monotonic s0 7 []).2.2.2.2 (by decide)⟩

lemma applyOp_term_mono (s : RaftState) (op : ProtoOp) :
    s.term ≤ (applyOp s op).term := by
  cases op with
  | setTerm t => exact trySetTerm_term_mono s t
  | setLastVotedFor m =>
    simp only [applyOp, RaftState.SetLastVotedFor]
    split_ifs <;> cases hv : s.votedFor <;> simp [orKeep, hv]
  | setLeader m =>
    simp only [applyOp, RaftState.SetLeader]
    cases m with
    | none => simp [orKeep]
    | some l =>
      cases hl : s.leader <;> simp only [hl] <;> (try split_ifs) <;>
        simp [orKeep]
  | setCommitIndex i =>
    simp only [applyOp, RaftState.SetCommitIndex]
    cases hf : s.firstCommitIndex <;> simp [hf]
  | commit i =>
    simp only [applyOp, RaftState.Commit]
    split
    · simp
    · split
      · split <;> simp
      · simp

lemma applyOps_cons (s : RaftState) (op : ProtoOp) (ops : List ProtoOp) :
    applyOps s (op :: ops) = applyOps (applyOp s op) ops := rfl

lemma applyOps_term_mono (ops : List ProtoOp) :
    ∀ s : RaftState, s.term ≤ (applyOps s ops).term := by
  induction ops with
  | nil => intro s; simp [applyOps]
  | cons op ops ih =>
    intro s
    rw [applyOps_cons]
    exact le_trans (applyOp_term_mono s op) (ih _)

lemma votedFor_step (s : RaftState) (v : MemberID) (op : ProtoOp)
    (h : s.votedFor = some v) :
    ((applyOp s op).term = s.term ∧ (applyOp s op).votedFor = some v) ∨
      (s.term < (applyOp s op).term ∧ (applyOp s op).votedFor = none) := by
  cases op with
  | setTerm t =>
    by_cases h₁ : t < s.term
    · left; simp [applyOp, RaftState.SetTerm, h₁, orKeep, h]
    · by_cases h₂ : s.term < t
      · right; simp [applyOp, RaftState.SetTerm, h₁, h₂, orKeep]
      · left; simp [applyOp, RaftState.SetTerm, h₁, h₂, orKeep, h]
  | setLastVotedFor m =>
    left
    simp only [applyOp, RaftState.SetLastVotedFor, h]
    split_ifs <;> simp [orKeep, h]
  | setLeader m =>
    left
    simp only [applyOp, RaftState.SetLeader]
    cases m with
    | none => simp [orKeep, h]
    | some l =>
      cases hl : s.leader <;> simp only [hl] <;> (try split_ifs) <;>
        simp [orKeep, h]
  | setCommitIndex i =>
    left
    simp only [applyOp, RaftState.SetCommitIndex]
    cases hf : s.firstCommitIndex <;> simp [hf, h]
  | commit i =>
    left
    simp only [applyOp, RaftState.Commit]
    split
    · simp [h]
    · split
      · split <;> simp [h]
      · simp [h]

lemma votedFor_persists (ops : List ProtoOp) :
    ∀ (s : RaftState) (v : MemberID), s.votedFor = some v →
      (applyOps s ops).term = s.term → (applyOps s ops).votedFor = some v := by
  induction ops with
  | nil => intro s v h _; simpa [applyOps] using h
  | cons op ops ih =>
    intro s v h hterm
    rw [applyOps_cons] at hterm ⊢
    rcases votedFor_step s v op h with ⟨hteq, hv⟩ | ⟨hlt, _⟩
    · exact ih (applyOp s op) v hv (by rw [hteq]; exact hterm)
    · have := applyOps_term_mono ops (applyOp s op)
      omega

/-- C2: at most one SetLastVotedFor call succeeds per term: the call
succeeds exactly on a nonempty known member id with no vote yet cast, an
empty or unknown id or a repeated vote fails and leaves votedFor unchanged,
and once cast the vote is returned by LastVotedFor for as long as the term
is unchanged, becoming unset when the term advances. -/
theorem setLastVotedFor_once (s : RaftState) (m v : MemberID) (t : Nat)
    (ops : List ProtoOp) :
    (m ≠ "" → m ∈ s.members → s.votedFor = none →
      s.SetLastVotedFor m = Except.ok { s with votedFor := some m }) ∧
    (m = "" → s.SetLastVotedFor m = Except.error "empty member id") ∧
    (m ≠ "" → m ∉ s.members →
      s.SetLastVotedFor m = Except.error "unknown member") ∧
    (s.votedFor = some v → m ≠ "" → m ∈ s.members →
      s.SetLastVotedFor m = Except.error "already voted in this term") ∧
    (s.votedFor = some v → ∃ e, s.SetLastVotedFor m = Except.error e) ∧
    (s.votedFor = some v → applyOp s (ProtoOp.setLastVotedFor m) = s) ∧
    (s.votedFor = some v → (applyOps s ops).term = s.term →
      (applyOps s ops).LastVotedFor = some v) ∧
    (s.votedFor = some v → s.term < t →
      (applyOp s (ProtoOp.setTerm t)).LastVotedFor = none) := by
  refine ⟨?_, ?_, ?_, ?_, ?_, ?_, ?_, ?_⟩
  · intro h₁ h₂ h₃; simp [RaftState.SetLastVotedFor, h₁, h₂, h₃]
  · intro h₁; simp [RaftState.SetLastVotedFor, h₁]
  · intro h₁ h₂; simp [RaftState.SetLastVotedFor, h₁, h₂]
  · intro h₁ h₂ h₃; simp [RaftState.SetLastVotedFor, h₁, h₂, h₃]
  · intro h₁
    simp only [RaftState.SetLastVotedFor, h₁]
    split_ifs <;> exact ⟨_, rfl⟩
  · intro h₁
    simp only [applyOp, RaftState.SetLastVotedFor, h₁]
    split_ifs <;> simp [orKeep]
  · intro h₁ h₂
    exact votedFor_persists ops s v h₁ h₂
  · intro h₁ h₂
    have h₃ : ¬ t < s.term := by omega
    simp [applyOp, RaftState.SetTerm, h₃, h₂, orKeep, RaftState.LastVotedFor]

/-- Concrete check of setLastVotedFor_once: a first vote succeeds, a second
vote fails, the vote survives unrelated calls, and a term advance clears
it. -/
theorem setLastVotedFor_once_witness :
    s0.SetLastVotedFor "foo" = Except.ok { s0 with votedFor := some "foo" } ∧
    s1.SetLastVotedFor "bar" = Except.error "already voted in this term" ∧
    (applyOps s1
        [ProtoOp.commit 5, ProtoOp.setLeader (some "bar")]).LastVotedFor =
      some "foo" ∧
    (applyOp s1 (ProtoOp.setTerm 9)).LastVotedFor = none :=
  ⟨(setLastVotedFor_once s0 "foo" "x" 0 []).1 (by decide) (by decide) rfl,
   (setLastVotedFor_once s1 "bar" "foo" 0 []).2.2.2.1 rfl (by decide)
     (by decide),
   (setLastVotedFor_once s1 "x" "foo" 0
       [ProtoOp.commit 5, ProtoOp.setLeader (some "bar")]).2.2.2.2.2.2.1 rfl
     (by decide),
   (setLastVotedFor_once s1 "x" "foo" 9 []).2.2.2.2.2.2.2 rfl (by decide)⟩

lemma leaderSuccesses_of_some (ms : List MemberID) :
    ∀ (s : RaftState) (l : MemberID), s.leader = some l →
      ∀ x ∈ leaderSuccesses s ms, x = l := by
  induction ms with
  | nil => intro s l _ x hx; simp [leaderSuccesses] at hx
  | cons m ms ih =>
    intro s l hl x hx
    by_cases hc : l = m
    · have hE : s.SetLeader (some m) = Except.ok s := by
        simp [RaftState.SetLeader, hl, hc]
      rw [leaderSuccesses, hE] at hx
      rcases List.mem_cons.mp hx with rfl | hx
      · exact hc.symm
      · exact ih s l hl x hx
    · have hE : s.SetLeader (some m) = Except.error "cannot change leaders" := by
        simp [RaftState.SetLeader, hl, hc]
      rw [leaderSuccesses, hE] at hx
      exact ih s l hl x hx

lemma leaderSuccesses_allEq (s : RaftState) (ms : List MemberID) :
    ∀ x ∈ leaderSuccesses s ms, ∀ y ∈ leaderSuccesses s ms, x = y := by
  cases hl : s.leader with
  | some l =>
    intro x hx y hy
    rw [leaderSuccesses_of_some ms s l hl x hx,
        leaderSuccesses_of_some ms s l hl y hy]
  | none =>
    cases ms with
    | nil => intro x hx; simp [leaderSuccesses] at hx
    | cons m ms =>
      intro x hx y hy
      have hE : s.SetLeader (some m) = Except.ok { s with leader := some m } := by
        simp [RaftState.SetLeader, hl]
      rw [leaderSuccesses, hE] at hx hy
      have hall := leaderSuccesses_of_some ms { s with leader := some m } m rfl
      have hx₁ : x = m := by
        rcases List.mem_cons.mp hx with rfl | hx₂
        · rfl
        · exact hall x hx₂
      have hy₁ : y = m := by
        rcases List.mem_cons.mp hy with rfl | hy₂
        · rfl
        · exact hall y hy₂
      rw [hx₁, hy₁]

/-- C3: within a term at most one distinct non-null leader can be set: once
a leader is set, a different non-null SetLeader fails and leaves the state
unchanged; SetLeader with null always succeeds, clears the leader and
changes neither term nor votedFor; and in any sequence of non-null
SetLeader calls all successful calls carry one single member id. -/
theorem setLeader_immutable (s : RaftState) (l l₂ : MemberID)
    (ms : List MemberID) :
    (s.leader = some l → l₂ ≠ l →
      s.SetLeader (some l₂) = Except.error "cannot change leaders") ∧
    (s.leader = some l → l₂ ≠ l →
      applyOp s (ProtoOp.setLeader (some l₂)) = s) ∧
    s.SetLeader none = Except.ok { s with leader := none } ∧
    (applyOp s (ProtoOp.setLeader none)).term = s.term ∧
    (applyOp s (ProtoOp.setLeader none)).votedFor = s.votedFor ∧
    (applyOp s (ProtoOp.setLeader none)).Leader = none ∧
    (∀ x ∈ leaderSuccesses s ms, ∀ y ∈ leaderSuccesses s ms, x = y) := by
  refine ⟨?_, ?_, ?_, ?_, ?_, ?_, leaderSuccesses_allEq s ms⟩
  · intro h₁ h₂
    have h₃ : ¬ l = l₂ := fun h => h₂ h.symm
    simp [RaftState.SetLeader, h₁, h₃]
  · intro h₁ h₂
    have h₃ : ¬ l = l₂ := fun h => h₂ h.symm
    simp [applyOp, RaftState.SetLeader, h₁, orKeep, h₃]
  · simp [RaftState.SetLeader]
  · simp [applyOp, RaftState.SetLeader, orKeep]
  · simp [applyOp, RaftState.SetLeader, orKeep]
  · simp [applyOp, RaftState.SetLeader, orKeep, RaftState.Leader]

/-- Concrete check of setLeader_immutable on s2 (leader bar): a different
leader is refused, clearing always works and preserves term and votedFor,
and successful non-null calls all carry one id. -/
theorem setLeader_immutable_witness :
    s2.SetLeader (some "foo") = Except.error "cannot change leaders" ∧
    applyOp s2 (ProtoOp.setLeader (some "foo")) = s2 ∧
    s2.SetLeader none = Except.ok { s2 with leader := none } ∧
    (applyOp s2 (ProtoOp.setLeader none)).term = s2.term ∧
    (∀ x ∈ leaderSuccesses s2 ["foo", "bar", "foo"],
      ∀ y ∈ leaderSuccesses s2 ["foo", "bar", "foo"], x = y) :=
  ⟨(setLeader_immutable s2 "bar" "foo" []).1 rfl (by decide),
   (setLeader_immutable s2 "bar" "foo" []).2.1 rfl (by decide),
   (setLeader_immutable s2 "bar" "foo" []).2.2.1,
   (setLeader_immutable s2 "bar" "foo" []).2.2.2.1,
   (setLeader_immutable s2 "bar" "foo" ["foo", "bar", "foo"]).2.2.2.2.2.2⟩

lemma commit_commitIndex_mono (s : RaftState) (i : Nat) :
    s.commitIndex ≤ (s.Commit i).1.commitIndex := by
  simp only [RaftState.Commit]
  split
  · simp
  · split
    · split <;> simp <;> omega
    · simp; omega

lemma runCommits_cons (s : RaftState) (i : Nat) (indices : List Nat) :
    RaftState.runCommits s (i :: indices) =
      RaftState.runCommits (s.Commit i).1 indices := rfl

lemma runCommits_commitIndex_mono (indices : List Nat) :
    ∀ s : RaftState, s.commitIndex ≤ (s.runCommits indices).commitIndex := by
  induction indices with
  | nil => intro s; simp [RaftState.runCommits]
  | cons i indices ih =>
    intro s
    rw [runCommits_cons]
    exact le_trans (commit_commitIndex_mono s i) (ih _)

/-- C4: Commit with an index at or below the current commit index returns
the current commit index and mutates nothing; with a greater index it
returns the previous commit index and stores the new one; hence the commit
index is monotonically non-decreasing over any sequence of Commit calls. -/
theorem commit_monotonic (s : RaftState) (i : Nat) (indices : List Nat) :
    (i ≤ s.commitIndex → s.Commit i = (s, s.commitIndex)) ∧
    (s.commitIndex < i → (s.Commit i).2 = s.commitIndex) ∧
    (s.commitIndex < i → (s.Commit i).1.commitIndex = i) ∧
    s.commitIndex ≤ (s.Commit i).1.commitIndex ∧
    s.commitIndex ≤ (s.runCommits indices).commitIndex := by
  refine ⟨?_, ?_, ?_, commit_commitIndex_mono s i,
    runCommits_commitIndex_mono indices s⟩
  · intro h; simp [RaftState.Commit, h]
  · intro h
    have h₁ : ¬ i ≤ s.commitIndex := by omega
    simp only [RaftState.Commit, if_neg h₁]
    split
    · split <;> simp
    · simp
  · intro h
    have h₁ : ¬ i ≤ s.commitIndex := by omega
    simp only [RaftState.Commit, if_neg h₁]
    split
    · split <;> simp
    · simp

/-- Concrete check of commit_monotonic on s3 (commit index 5): a lower
commit is a pure read, a higher commit returns the previous index and
stores the new one. -/
theorem commit_monotonic_witness :
    s3.Commit 3 = (s3, 5) ∧
    (s3.Commit 9).2 = 5 ∧
    (s3.Commit 9).1.commitIndex = 9 :=
  ⟨(commit_monotonic s3 3 []).1 (by decide),
   (commit_monotonic s3 9 []).2.1 (by decide),
   (commit_monotonic s3 9 []).2.2.1 (by decide)⟩

/-- C5: SetCommitIndex records the first commit index only on its first
call, later calls change nothing (and the operation is total, so it can
never fail); once the first commit index is set, a Commit that advances the
commit index to or past it while the status is Running turns the status
Ready and emits a Ready status event. -/
theorem setCommitIndex_first_ready (s : RaftState) (i f : Nat) :
    (s.firstCommitIndex = none →
      s.SetCommitIndex i = { s with firstCommitIndex := some i }) ∧
    (s.firstCommitIndex = some f → s.SetCommitIndex i = s) ∧
    (s.firstCommitIndex = some f → s.status = Status.Running →
      s.commitIndex < i → f ≤ i →
      (s.Commit i).1.status = Status.Ready ∧
      (s.Commit i).1.events = s.events ++ [Status.Ready] ∧
      (s.Commit i).1.commitIndex = i ∧
      (s.Commit i).2 = s.commitIndex) := by
  refine ⟨?_, ?_, ?_⟩
  · intro h; simp [RaftState.SetCommitIndex, h]
  · intro h; simp [RaftState.SetCommitIndex, h]
  · intro h₁ h₂ h₃ h₄
    have h₅ : ¬ i ≤ s.commitIndex := by omega
    simp [RaftState.Commit, if_neg h₅, h₁, h₂, h₄]

/-- Concrete check of setCommitIndex_first_ready on s0 and s3: the first
SetCommitIndex records 10, the second is ignored, and committing past the
first commit index turns the status Ready with an event. -/
theorem setCommitIndex_first_ready_witness :
    s0.SetCommitIndex 10 = { s0 with firstCommitIndex := some 10 } ∧
    s3.SetCommitIndex 50 = s3 ∧
    (s3.Commit 10).1.status = Status.Ready ∧
    (s3.Commit 10).1.events = s3.events ++ [Status.Ready] :=
  ⟨(setCommitIndex_first_ready s0 10 0).1 rfl,
   (setCommitIndex_first_ready s3 50 10).2.1 rfl,
   ((setCommitIndex_first_ready s3 10 10).2.2 rfl rfl (by decide)
     (by decide)).1,
   ((setCommitIndex_first_ready s3 10 10).2.2 rfl rfl (by decide)
     (by decide)).2.1⟩

lemma runTally_nil (q eT : Nat) (a : Bool) (cT : Nat) (l : Option MemberID)
    (ts : TallyState) :
    runTally q eT a cT l ts [] = ElectionOutcome.undecided := rfl

lemma runTally_cons (q eT : Nat) (a : Bool) (cT : Nat) (l : Option MemberID)
    (ts : TallyState) (v : Bool) (vs : List Bool) :
    runTally q eT a cT l ts (v :: vs) =
      match tallyStep q eT a cT l ts v with
      | .abort => .aborted
      | .wonElection => .becameLeader
      | .lostElection => .becameFollower
      | .keepCounting ts₁ => runTally q eT a cT l ts₁ vs := rfl

lemma tallyStep_live_true (q eT : Nat) (ts : TallyState) :
    tallyStep q eT true eT none ts true =
      if ts.voteCount + 1 = q then TallyStep.wonElection
      else TallyStep.keepCounting ⟨ts.voteCount + 1, ts.rejectCount⟩ := by
  simp [tallyStep]

lemma tallyStep_live_true_someLeader (q eT : Nat) (l : MemberID)
    (ts : TallyState) :
    tallyStep q eT true eT (some l) ts true =
      TallyStep.keepCounting ⟨ts.voteCount + 1, ts.rejectCount⟩ := by
  simp [tallyStep]

lemma tallyStep_live_false (q eT : Nat) (l : Option MemberID)
    (ts : TallyState) :
    tallyStep q eT true eT l ts false =
      if ts.rejectCount + 1 = q then TallyStep.lostElection
      else TallyStep.keepCounting ⟨ts.voteCount, ts.rejectCount + 1⟩ := by
  simp [tallyStep]

lemma runTally_leader_iff (q eT : Nat) (votes : List Bool) :
    ∀ yes no : Nat, yes < q → no < q →
      (runTally q eT true eT none ⟨yes, no⟩ votes =
          ElectionOutcome.becameLeader ↔
        ∃ k, yes + yesVotes (votes.take k) = q ∧
          no + noVotes (votes.take k) < q) := by
  induction votes with
  | nil =>
    intro yes no hy hn
    constructor
    · intro h
      rw [runTally_nil] at h
      exact absurd h (by decide)
    · rintro ⟨k, hk₁, hk₂⟩
      simp [yesVotes] at hk₁
      omega
  | cons v vs ih =>
    intro yes no hy hn
    cases v with
    | true =>
      by_cases h₁ : yes + 1 = q
      · simp only [runTally_cons, tallyStep_live_true, if_pos h₁]
        constructor
        · intro _
          refine ⟨1, ?_, ?_⟩
          · simp [List.take_succ_cons, List.take_zero, yesVotes]; omega
          · simp [List.take_succ_cons, List.take_zero, yesVotes, noVotes]
            omega
        · intro _; trivial
      · simp only [runTally_cons, tallyStep_live_true, if_neg h₁]
        have hy₁ : yes + 1 < q := by omega
        rw [ih (yes + 1) no hy₁ hn]
        constructor
        · rintro ⟨k, hk₁, hk₂⟩
          refine ⟨k + 1, ?_, ?_⟩
          · simp only [List.take_succ_cons, yesVotes]; omega
          · simp only [List.take_succ_cons, noVotes]; omega
        · rintro ⟨k, hk₁, hk₂⟩
          cases k with
          | zero =>
            simp only [List.take_zero, yesVotes] at hk₁
            omega
          | succ k =>
            simp only [List.take_succ_cons, yesVotes, noVotes] at hk₁ hk₂
            exact ⟨k, by omega, by omega⟩
    | false =>
      by_cases h₁ : no + 1 = q
      · simp only [runTally_cons, tallyStep_live_false, if_pos h₁]
        constructor
        · intro h; exact absurd h (by decide)
        · rintro ⟨k, hk₁, hk₂⟩
          cases k with
          | zero =>
            simp only [List.take_zero, yesVotes] at hk₁
            omega
          | succ k =>
            simp only [List.take_succ_cons, yesVotes, noVotes] at hk₁ hk₂
            omega
      · simp only [runTally_cons, tallyStep_live_false, if_neg h₁]
        have hn₁ : no + 1 < q := by omega
        rw [ih yes (no + 1) hy hn₁]
        constructor
        · rintro ⟨k, hk₁, hk₂⟩
          refine ⟨k + 1, ?_, ?_⟩
          · simp only [List.take_succ_cons, yesVotes]; omega
          · simp only [List.take_succ_cons, noVotes]; omega
        · rintro ⟨k, hk₁, hk₂⟩
          cases k with
          | zero =>
            simp only [List.take_zero, yesVotes] at hk₁
            omega
          | succ k =>
            simp only [List.take_succ_cons, yesVotes, noVotes] at hk₁ hk₂
            exact ⟨k, by omega, by omega⟩

lemma runTally_follower_iff (q eT : Nat) (votes : List Bool) :
    ∀ yes no : Nat, yes < q → no < q →
      (runTally q eT true eT none ⟨yes, no⟩ votes =
          ElectionOutcome.becameFollower ↔
        ∃ k, no + noVotes (votes.take k) = q ∧
          yes + yesVotes (votes.take k) < q) := by
  induction votes with
  | nil =>
    intro yes no hy hn
    constructor
    · intro h
      rw [runTally_nil] at h
      exact absurd h (by decide)
    · rintro ⟨k, hk₁, hk₂⟩
      simp [noVotes] at hk₁
      omega
  | cons v vs ih =>
    intro yes no hy hn
    cases v with
    | true =>
      by_cases h₁ : yes + 1 = q
      · simp only [runTally_cons, tallyStep_live_true, if_pos h₁]
        constructor
        · intro h; exact absurd h (by decide)
        · rintro ⟨k, hk₁, hk₂⟩
          cases k with
          | zero =>
            simp only [List.take_zero, noVotes] at hk₁
            omega
          | succ k =>
            simp only [List.take_succ_cons, yesVotes, noVotes] at hk₁ hk₂
            omega
      · simp only [runTally_cons, tallyStep_live_true, if_neg h₁]
        have hy₁ : yes + 1 < q := by omega
        rw [ih (yes + 1) no hy₁ hn]
        constructor
        · rintro ⟨k, hk₁, hk₂⟩
          refine ⟨k + 1, ?_, ?_⟩
          · simp only [List.take_succ_cons, noVotes]; omega
          · simp only [List.take_succ_cons, yesVotes]; omega
        · rintro ⟨k, hk₁, hk₂⟩
          cases k with
          | zero =>
            simp only [List.take_zero, noVotes] at hk₁
            omega
          | succ k =>
            simp only [List.take_succ_cons, yesVotes, noVotes] at hk₁ hk₂
            exact ⟨k, by omega, by omega⟩
    | false =>
      by_cases h₁ : no + 1 = q
      · simp only [runTally_cons, tallyStep_live_false, if_pos h₁]
        constructor
        · intro _
          refine ⟨1, ?_, ?_⟩
          · simp [List.take_succ_cons, List.take_zero, noVotes]; omega
          · simp [List.take_succ_cons, List.take_zero, yesVotes, noVotes]
            omega
        · intro _; trivial
      · simp only [runTally_cons, tallyStep_live_false, if_neg h₁]
        have hn₁ : no + 1 < q := by omega
        rw [ih yes (no + 1) hy hn₁]
        constructor
        · rintro ⟨k, hk₁, hk₂⟩
          refine ⟨k + 1, ?_, ?_⟩
          · simp only [List.take_succ_cons, noVotes]; omega
          · simp only [List.take_succ_cons, yesVotes]; omega
        · rintro ⟨k, hk₁, hk₂⟩
          cases k with
          | zero =>
            simp only [List.take_zero, noVotes] at hk₁
            omega
          | succ k =>
            simp only [List.take_succ_cons, yesVotes, noVotes] at hk₁ hk₂
            exact ⟨k, by omega, by omega⟩

lemma runTally_someLeader_ne (q eT : Nat) (l : MemberID) (votes : List Bool) :
    ∀ ts : TallyState,
      runTally q eT true eT (some l) ts votes ≠
        ElectionOutcome.becameLeader := by
  induction votes with
  | nil => intro ts h; rw [runTally_nil] at h; exact absurd h (by decide)
  | cons v vs ih =>
    intro ts h
    cases v with
    | true =>
      rw [runTally_cons, tallyStep_live_true_someLeader] at h
      exact ih _ h
    | false =>
      rw [runTally_cons, tallyStep_live_false] at h
      by_cases h₁ : ts.rejectCount + 1 = q
      · rw [if_pos h₁] at h
        simp at h
      · rw [if_neg h₁] at h
        exact ih _ h

/-- C6: over n voting members with quorum n / 2 + 1, a live election round
(candidate still active, term still the election term, so no higher term
was observed) reaches the leader transition exactly when some prefix of the
received votes carries a quorum of grants while rejections are still below
quorum, with the leader unset; it reaches the follower transition exactly
when some prefix carries a quorum of rejections first; and with a leader
already set the loop never transitions to leader. -/
theorem candidate_election_quorum (n eT : Nat) (votes : List Bool)
    (l : MemberID) (ts : TallyState) :
    (runTally (quorumOf n) eT true eT none ⟨0, 0⟩ votes =
        ElectionOutcome.becameLeader ↔
      ∃ k, yesVotes (votes.take k) = quorumOf n ∧
        noVotes (votes.take k) < quorumOf n) ∧
    (runTally (quorumOf n) eT true eT none ⟨0, 0⟩ votes =
        ElectionOutcome.becameFollower ↔
      ∃ k, noVotes (votes.take k) = quorumOf n ∧
        yesVotes (votes.take k) < quorumOf n) ∧
    runTally (quorumOf n) eT true eT (some l) ts votes ≠
      ElectionOutcome.becameLeader := by
  have hq : 0 < quorumOf n := Nat.succ_le_succ (Nat.zero_le _)
  refine ⟨?_, ?_, runTally_someLeader_ne (quorumOf n) eT l votes ts⟩
  · simpa using runTally_leader_iff (quorumOf n) eT votes 0 0 hq hq
  · simpa using runTally_follower_iff (quorumOf n) eT votes 0 0 hq hq

/-- Concrete check of candidate_election_quorum with three members (quorum
two): two grants win the election, two rejections lose it, and with a known
leader the votes do not produce a leader transition. -/
theorem candidate_election_quorum_witness :
    runTally (quorumOf 3) 1 true 1 none ⟨0, 0⟩ [true, false, true] =
      ElectionOutcome.becameLeader ∧
    runTally (quorumOf 3) 1 true 1 none ⟨0, 0⟩ [false, true, false] =
      ElectionOutcome.becameFollower ∧
    runTally (quorumOf 3) 1 true 1 (some "bar") ⟨0, 0⟩ [true, true, true] ≠
      ElectionOutcome.becameLeader :=
  ⟨(candidate_election_quorum 3 1 [true, false, true] "bar" ⟨0, 0⟩).1.mpr
      ⟨3, by decide, by decide⟩,
   (candidate_election_quorum 3 1 [false, true, false] "bar" ⟨0, 0⟩).2.1.mpr
      ⟨3, by decide, by decide⟩,
   (candidate_election_quorum 3 1 [true, true, true] "bar" ⟨0, 0⟩).2.2⟩

/-- C7: a vote response carrying a term above the requested one makes the
candidate adopt that term through SetTerm, request the follower role, and
close the votes channel without pushing a vote; the term is adopted
whenever the current term does not already exceed the response term. -/
theorem candidate_reply_greater_term (s : RaftState) (reqT t : Nat)
    (voted : Bool) (h : reqT < t) :
    (handleVoteReply s reqT (VoteReply.response t voted)).roleSet =
      some RoleType.Follower ∧
    (handleVoteReply s reqT (VoteReply.response t voted)).closedVotes = true ∧
    (handleVoteReply s reqT (VoteReply.response t voted)).pushedVote = none ∧
    (s.term ≤ t →
      (handleVoteReply s reqT (VoteReply.response t voted)).raft.term = t) := by
  simp only [handleVoteReply, if_pos h]
  exact ⟨trivial, trivial, trivial, fun h₂ => trySetTerm_term_of_le s t h₂⟩

/-- Concrete check of candidate_reply_greater_term on s0 (term 3) with a
response at term 5. -/
theorem candidate_reply_greater_term_witness :
    (handleVoteReply s0 3 (VoteReply.response 5 true)).roleSet =
      some RoleType.Follower ∧
    (handleVoteReply s0 3 (VoteReply.response 5 true)).closedVotes = true ∧
    (handleVoteReply s0 3 (VoteReply.response 5 true)).raft.term = 5 :=
  ⟨(candidate_reply_greater_term s0 3 5 true (by decide)).1,
   (candidate_reply_greater_term s0 3 5 true (by decide)).2.1,
   (candidate_reply_greater_term s0 3 5 true (by decide)).2.2.2 (by decide)⟩

/-- C8: a failed peer vote RPC pushes a rejection onto the tally channel,
and a granted vote response whose term does not exceed the request term but
differs from the candidate's term (here equal to the election term) also
pushes a rejection; neither is discarded and neither touches the protocol
state. -/
theorem candidate_counts_rejections (s : RaftState) (reqT t : Nat) :
    handleVoteReply s reqT VoteReply.rpcFailure =
      ⟨s, none, false, some false⟩ ∧
    (t ≤ reqT → s.term = reqT → t ≠ reqT →
      handleVoteReply s reqT (VoteReply.response t true) =
        ⟨s, none, false, some false⟩) := by
  refine ⟨rfl, ?_⟩
  intro h₁ h₂ h₃
  have h₄ : ¬ reqT < t := by omega
  have h₅ : t ≠ s.term := by omega
  simp [handleVoteReply, h₄, h₅]

/-- Concrete check of candidate_counts_rejections on s0 (term 3): an RPC
failure and a granted vote at stale term 2 are both tallied as
rejections. -/
theorem candidate_counts_rejections_witness :
    handleVoteReply s0 3 VoteReply.rpcFailure =
      ⟨s0, none, false, some false⟩ ∧
    handleVoteReply s0 3 (VoteReply.response 2 true) =
      ⟨s0, none, false, some false⟩ :=
  ⟨(candidate_counts_rejections s0 3 2).1,
   (candidate_counts_rejections s0 3 2).2 (by decide) (by decide)
     (by decide)⟩

/-- C9: starting the candidate role in a cluster with exactly one voting
member transitions straight to leader with the protocol state untouched (so
no term increment and no self-vote) and no election round scheduled (so no
vote requests are sent). -/
theorem candidate_single_member_leader (s : RaftState)
    (h : s.members.length = 1) :
    candidateStart s = ⟨s, some RoleType.Leader, false⟩ := by
  simp [candidateStart, h]

/-- Concrete check of candidate_single_member_leader on a one-member
cluster. -/
theorem candidate_single_member_leader_witness :
    candidateStart sOne = ⟨sOne, some RoleType.Leader, false⟩ :=
  candidate_single_member_leader sOne (by decide)

/-- C10: a vote request whose term does not exceed the candidate's current
term leaves the protocol state untouched (so term, votedFor, leader and
commitIndex are unchanged), requests no role change, and is answered OK at
the current term with a grant exactly when the request names this member. -/
theorem candidate_vote_frame (s : RaftState) (self : MemberID)
    (req : VoteRequest) (li lt : Nat) (h : req.term ≤ s.term) :
    (candidateVote s self req li lt).1 = s ∧
    (candidateVote s self req li lt).2.2 = none ∧
    (candidateVote s self req li lt).2.1.status = ResponseStatus.OK ∧
    (candidateVote s self req li lt).2.1.term = s.term ∧
    ((candidateVote s self req li lt).2.1.voted = true ↔
      req.candidate = self) := by
  have hupd : updateTermAndLeader s req.term none = (s, false) := by
    simp only [updateTermAndLeader]
    rw [if_neg (by omega)]
  by_cases hc : req.candidate = self
  · simp [candidateVote, hupd, hc]
  · simp [candidateVote, hupd, hc]

/-- Concrete check of candidate_vote_frame on s0 with a request naming this
member at the current term. -/
theorem candidate_vote_frame_witness :
    (candidateVote s0 "foo" reqSelf 0 0).1 = s0 ∧
    (candidateVote s0 "foo" reqSelf 0 0).2.2 = none ∧
    (candidateVote s0 "foo" reqSelf 0 0).2.1.voted = true :=
  ⟨(candidate_vote_frame s0 "foo" reqSelf 0 0 (by decide)).1,
   (candidate_vote_frame s0 "foo" reqSelf 0 0 (by decide)).2.1,
   (candidate_vote_frame s0 "foo" reqSelf 0 0 (by decide)).2.2.2.2.mpr rfl⟩

end Raft
